import Mathlib

set_option maxHeartbeats 1000000

/-!
# Verification of the REIT/FRED monthly panel pipeline

Shallow embedding of the three pipeline scripts:

* `code/fetch_reit_data.py` — `clean_reit_data`: drop rows with missing
  critical fields, drop unparseable dates, coerce numerics, filter returns to
  `[-1, 5]` — but only when at least one strictly out-of-bounds return exists
  (`if outliers > 0`) — uppercase tickers, drop duplicate `(ticker, date)`
  keys keeping the first occurrence.
* `code/fetch_fred_data.py` — `clean_fred_data`: normalize dates to month-end,
  forward-fill gaps with limit 2, drop rows with remaining missing values,
  add the year-over-year CPI change and the federal-funds lags (positional,
  as pandas `pct_change(12)` / `shift(1)` / `shift(3)`), drop rows where the
  derived fields are missing.
* `code/merge_final_panel.py` — month-end alignment, a left join of the
  entity (REIT) table onto the indicator (FRED) table on the date key, a
  row-count check that only fires on row loss, sorting, and persistence.

Pandas dataframes are embedded as lists of records; a nullable (possibly-NaN)
cell is an `Option`, and a raw CSV cell that may additionally fail to parse is
an `Option (Option _)`.
-/

/-- A calendar date (year, month, day), standing for a pandas `Timestamp`
(the time-of-day component plays no role in the pipeline). -/
structure CalDate where
  year : Nat
  month : Nat
  day : Nat
deriving DecidableEq

/-- Gregorian leap-year rule, needed for the length of February. -/
def isLeapYear (y : Nat) : Bool :=
  y % 4 == 0 && (y % 100 != 0 || y % 400 == 0)

/-- Number of days of month `m` of year `y`. -/
def lastDayOfMonth (y m : Nat) : Nat :=
  if m == 2 then (if isLeapYear y then 29 else 28)
  else if m == 4 || m == 6 || m == 9 || m == 11 then 30
  else 31

/-- `d.dt.to_period('M').dt.to_timestamp('M')`: the last calendar day of the
month the date belongs to.  This is the join key used by the pipeline. -/
def monthEnd (d : CalDate) : CalDate :=
  ⟨d.year, d.month, lastDayOfMonth d.year d.month⟩

/-- The calendar month a date belongs to. -/
def calMonth (d : CalDate) : Nat × Nat := (d.year, d.month)

/-! ## The entity (REIT) cleaner, `clean_reit_data` -/

/-- A raw CSV cell: `none` = missing in the file (NaN after `read_csv`),
`some none` = present but not parseable by the later coercion
(`pd.to_datetime(..., errors='coerce')` / `pd.to_numeric(..., errors='coerce')`),
`some (some v)` = present with parsed value `v`. -/
abbrev RawCell (α : Type) := Option (Option α)

/-- One row of the raw REIT master panel.  The optional financial attributes
(`market_equity`, `assets`, …) never influence the cleaning decisions and are
carried opaquely, after numeric coercion, in `otherAttrs`. -/
structure RawReitRow where
  ticker : Option String
  date : RawCell CalDate
  usdret : RawCell Rat
  otherAttrs : List (Option Rat)
deriving DecidableEq

/-- `df.dropna(subset=['ticker', 'date', 'usdret'])`: drop rows where a
critical cell is missing from the file. -/
def dropMissingCritical (df : List RawReitRow) : List RawReitRow :=
  df.filter fun r => r.ticker.isSome && r.date.isSome && r.usdret.isSome

/-- After `pd.to_datetime(df['date'], errors='coerce')`, drop the rows whose
date did not parse (`df.dropna(subset=['date'])`). -/
def dropInvalidDates (df : List RawReitRow) : List RawReitRow :=
  df.filter fun r => match r.date with
    | some (some _) => true
    | _ => false

/-- The outlier count `(df['usdret'] > 5.0) | (df['usdret'] < -1.0)`: a row
counts as an outlier only when its return parsed to a number strictly outside
the bounds (a NaN comparison is `False` in pandas, so an unparseable return is
*not* counted). -/
def returnOutlier (r : RawReitRow) : Bool :=
  match r.usdret with
  | some (some q) => decide (5 < q) || decide (q < -1)
  | _ => false

/-- The keep condition `(df['usdret'] <= 5.0) & (df['usdret'] >= -1.0)`:
a row passes only when its return parsed to a number inside the bounds
(a NaN comparison is `False` in pandas, so unparseable returns are dropped
*when this filter runs*). -/
def returnInBounds (r : RawReitRow) : Bool :=
  match r.usdret with
  | some (some q) => decide (q ≤ 5) && decide (-1 ≤ q)
  | _ => false

/-- The guarded outlier removal of `clean_reit_data`:
`outliers = len(df[(usdret > 5.0) | (usdret < -1.0)])` and only
`if outliers > 0:` is the table filtered to
`df[(usdret <= 5.0) & (usdret >= -1.0)]`; when no strictly out-of-bounds
return exists the table passes through unchanged (NaN returns included). -/
def filterOutlierReturns (df : List RawReitRow) : List RawReitRow :=
  if 0 < (df.filter returnOutlier).length then df.filter returnInBounds
  else df

/-- Character-wise uppercasing, the effect of pandas `str.upper()` on the
ASCII tickers of this dataset. -/
def upperString (s : String) : String :=
  ⟨s.data.map Char.toUpper⟩

/-- `df['ticker'] = df['ticker'].astype(str).str.upper()`. -/
def upperTickers (df : List RawReitRow) : List RawReitRow :=
  df.map fun r => { r with ticker := r.ticker.map upperString }

/-- The key of `df.drop_duplicates(subset=['ticker', 'date'])`. -/
def reitKey (r : RawReitRow) : Option String × RawCell CalDate :=
  (r.ticker, r.date)

/-- Core of `drop_duplicates(keep='first')`: a row is dropped exactly when its
key was already seen earlier. -/
def dedupAux (key : α → κ) [DecidableEq κ] (seen : List κ) : List α → List α
  | [] => []
  | x :: xs =>
    if key x ∈ seen then dedupAux key seen xs
    else x :: dedupAux key (key x :: seen) xs

/-- `df.drop_duplicates(subset=..., keep='first')`. -/
def dropDuplicatesKeepFirst (key : α → κ) [DecidableEq κ] (l : List α) : List α :=
  dedupAux key [] l

/-- The rows surviving every step of `clean_reit_data` before the final
de-duplication, in input order (tickers already uppercased). -/
def validReitRows (df : List RawReitRow) : List RawReitRow :=
  upperTickers (filterOutlierReturns (dropInvalidDates (dropMissingCritical df)))

/-- `clean_reit_data` of `code/fetch_reit_data.py`. -/
def clean_reit_data (df : List RawReitRow) : List RawReitRow :=
  dropDuplicatesKeepFirst reitKey (validReitRows df)

/-! ### Lemmas about de-duplication -/

theorem mem_dedupAux {key : α → κ} [DecidableEq κ] {l : List α} :
    ∀ {seen : List κ} {a : α}, a ∈ dedupAux key seen l → a ∈ l := by
  induction l with
  | nil => intro seen a h; cases h
  | cons x xs ih =>
    intro seen a h
    by_cases hx : key x ∈ seen
    · simp only [dedupAux, if_pos hx] at h
      exact List.mem_cons_of_mem x (ih h)
    · simp only [dedupAux, if_neg hx, List.mem_cons] at h
      rcases h with h | h
      · exact h ▸ List.mem_cons_self x xs
      · exact List.mem_cons_of_mem x (ih h)

theorem dedupAux_keys {key : α → κ} [DecidableEq κ] {l : List α} :
    ∀ {seen : List κ},
      ((dedupAux key seen l).map key).Nodup ∧
      ∀ a ∈ dedupAux key seen l, key a ∉ seen := by
  induction l with
  | nil => intro seen; exact ⟨List.nodup_nil, by intro a h; cases h⟩
  | cons x xs ih =>
    intro seen
    by_cases hx : key x ∈ seen
    · simpa only [dedupAux, if_pos hx] using ih
    · simp only [dedupAux, if_neg hx]
      obtain ⟨hnd, hfresh⟩ := @ih (key x :: seen)
      refine ⟨?_, ?_⟩
      · simp only [List.map_cons, List.nodup_cons]
        refine ⟨?_, hnd⟩
        intro hmem
        obtain ⟨a, ha, hkey⟩ := List.mem_map.mp hmem
        exact hfresh a ha (hkey ▸ List.mem_cons_self _ _)
      · intro a ha
        rcases List.mem_cons.mp ha with rfl | ha
        · exact hx
        · exact fun hs => hfresh a ha (List.mem_cons_of_mem _ hs)

theorem dedupAux_filter_key {key : α → κ} [DecidableEq κ] (k : κ) :
    ∀ (l : List α) (seen : List κ),
      (dedupAux key seen l).filter (fun a => decide (key a = k)) =
        if k ∈ seen then []
        else (l.filter (fun a => decide (key a = k))).take 1 := by
  intro l
  induction l with
  | nil => intro seen; by_cases hk : k ∈ seen <;> simp [dedupAux, hk]
  | cons x xs ih =>
    intro seen
    by_cases hx : key x ∈ seen
    · by_cases hxk : key x = k
      · have hk : k ∈ seen := hxk ▸ hx
        simp [dedupAux, if_pos hx, ih, hk]
      · by_cases hk : k ∈ seen
        · simp [dedupAux, if_pos hx, ih, hk]
        · simp [dedupAux, if_pos hx, ih, hk, List.filter_cons, hxk]
    · by_cases hxk : key x = k
      · have hk : k ∉ seen := fun hs => hx (hxk ▸ hs)
        simp only [dedupAux, if_neg hx, List.filter_cons, hxk, decide_True,
          if_pos, if_neg hk, List.take_succ_cons, List.take_zero,
          List.cons.injEq, true_and]
        have hfresh := (@dedupAux_keys _ _ key _ xs (k :: seen)).2
        rw [List.filter_eq_nil_iff]
        intro a ha
        simp only [decide_eq_true_eq]
        intro hka
        exact hfresh a ha (hka ▸ List.mem_cons_self _ _)
      · by_cases hk : k ∈ seen
        · have hkmem : k ∈ key x :: seen := List.mem_cons_of_mem _ hk
          simp [dedupAux, if_neg hx, List.filter_cons, hxk, ih, hkmem, hk]
        · have hkmem : k ∉ key x :: seen := by
            intro hc
            rcases List.mem_cons.mp hc with h | h
            · exact hxk h.symm
            · exact hk h
          simp [dedupAux, if_neg hx, List.filter_cons, hxk, ih, hkmem, hk]

/-! ## The indicator (FRED) cleaner, `clean_fred_data` -/

/-- One row of the raw FRED table (`date` plus the four fetched series;
a `none` cell is a NaN). -/
structure FredRawRow where
  date : CalDate
  fedfunds : Option Rat
  mortgage30us : Option Rat
  cpiaucsl : Option Rat
  unrate : Option Rat
deriving DecidableEq

/-- A FRED row after `dropna`: every series value present. -/
structure FredFullRow where
  date : CalDate
  fedfunds : Rat
  mortgage30us : Rat
  cpiaucsl : Rat
  unrate : Rat
deriving DecidableEq

/-- A FRED row carrying the derived columns, which are missing during the
warm-up period (`pct_change(12)`, `shift(1)`, `shift(3)`). -/
structure FredDerivedRow where
  date : CalDate
  fedfunds : Rat
  mortgage30us : Rat
  cpiaucsl : Rat
  unrate : Rat
  cpi_inflation_yoy : Option Rat
  fedfunds_lag1 : Option Rat
  fedfunds_lag3 : Option Rat
deriving DecidableEq

/-- A fully cleaned FRED row (output schema of `clean_fred_data`),
as re-loaded by the merge script. -/
structure CleanFredRow where
  date : CalDate
  fedfunds : Rat
  mortgage30us : Rat
  cpiaucsl : Rat
  unrate : Rat
  cpi_inflation_yoy : Rat
  fedfunds_lag1 : Rat
  fedfunds_lag3 : Rat
deriving DecidableEq

/-- `df['date'].dt.to_period('M').dt.to_timestamp('M')` on the FRED table. -/
def normalizeFredDates (df : List FredRawRow) : List FredRawRow :=
  df.map fun r => { r with date := monthEnd r.date }

/-- One column step of `ffill(limit=2)`.  State: the last valid value seen and
how many rows ago it occurred.  A NaN is filled only while at most two
consecutive NaNs have followed the last valid value. -/
def stepFfill : Option Rat × Nat → Option Rat → Option Rat × (Option Rat × Nat)
  | (last, k), none => ((if k < 2 then last else none), (last, k + 1))
  | (_, _), some v => (some v, (some v, 0))

/-- Row recursion of `df.ffill(limit=2)` with one fill state per series column
(the date column holds no NaN, so it is untouched). -/
def ffillRows (sf sm sc su : Option Rat × Nat) : List FredRawRow → List FredRawRow
  | [] => []
  | r :: rs =>
    { date := r.date,
      fedfunds := (stepFfill sf r.fedfunds).1,
      mortgage30us := (stepFfill sm r.mortgage30us).1,
      cpiaucsl := (stepFfill sc r.cpiaucsl).1,
      unrate := (stepFfill su r.unrate).1 } ::
    ffillRows (stepFfill sf r.fedfunds).2 (stepFfill sm r.mortgage30us).2
      (stepFfill sc r.cpiaucsl).2 (stepFfill su r.unrate).2 rs

/-- `df.ffill(limit=2)`. -/
def ffillLimit2 (df : List FredRawRow) : List FredRawRow :=
  ffillRows (none, 0) (none, 0) (none, 0) (none, 0) df

/-- First `df.dropna()`: keep exactly the rows with every series present. -/
def dropnaFred (df : List FredRawRow) : List FredFullRow :=
  df.filterMap fun r =>
    match r.fedfunds, r.mortgage30us, r.cpiaucsl, r.unrate with
    | some f, some m, some c, some u =>
      some { date := r.date, fedfunds := f, mortgage30us := m,
             cpiaucsl := c, unrate := u }
    | _, _, _, _ => none

/-- The derived columns: `pct_change(12) * 100` on CPI and the positional lags
`shift(1)` and `shift(3)` of the federal funds rate. -/
def addDerivedFields (l : List FredFullRow) : List FredDerivedRow :=
  List.ofFn fun i : Fin l.length =>
    let cur := l.get i
    { date := cur.date, fedfunds := cur.fedfunds,
      mortgage30us := cur.mortgage30us, cpiaucsl := cur.cpiaucsl,
      unrate := cur.unrate,
      cpi_inflation_yoy :=
        if 12 ≤ i.val then
          some ((cur.cpiaucsl /
            (l.get ⟨i.val - 12, Nat.lt_of_le_of_lt (Nat.sub_le _ _) i.isLt⟩).cpiaucsl
            - 1) * 100)
        else none,
      fedfunds_lag1 :=
        if 1 ≤ i.val then
          some (l.get ⟨i.val - 1, Nat.lt_of_le_of_lt (Nat.sub_le _ _) i.isLt⟩).fedfunds
        else none,
      fedfunds_lag3 :=
        if 3 ≤ i.val then
          some (l.get ⟨i.val - 3, Nat.lt_of_le_of_lt (Nat.sub_le _ _) i.isLt⟩).fedfunds
        else none }

/-- Final `df.dropna()`: keep exactly the rows whose derived columns are all
present. -/
def dropnaDerived (df : List FredDerivedRow) : List CleanFredRow :=
  df.filterMap fun r =>
    match r.cpi_inflation_yoy, r.fedfunds_lag1, r.fedfunds_lag3 with
    | some y, some l1, some l3 =>
      some { date := r.date, fedfunds := r.fedfunds,
             mortgage30us := r.mortgage30us, cpiaucsl := r.cpiaucsl,
             unrate := r.unrate, cpi_inflation_yoy := y,
             fedfunds_lag1 := l1, fedfunds_lag3 := l3 }
    | _, _, _ => none

/-- `clean_fred_data` of `code/fetch_fred_data.py`. -/
def clean_fred_data (df : List FredRawRow) : List CleanFredRow :=
  dropnaDerived (addDerivedFields (dropnaFred (ffillLimit2 (normalizeFredDates df))))

/-! ### Date-column preservation through the FRED cleaning steps -/

theorem ffillRows_map_date (l : List FredRawRow) :
    ∀ sf sm sc su, (ffillRows sf sm sc su l).map (fun r => r.date) =
      l.map (fun r => r.date) := by
  induction l with
  | nil => intro sf sm sc su; rfl
  | cons r rs ih => intro sf sm sc su; simp [ffillRows, ih]

/-- Mapping a field through a `filterMap` that preserves it yields a sublist of
the corresponding input column. -/
theorem map_filterMap_sublist {α β γ : Type} (f : α → Option β) (g : β → γ)
    (h : α → γ) (H : ∀ a b, f a = some b → g b = h a) (l : List α) :
    List.Sublist ((l.filterMap f).map g) (l.map h) := by
  induction l with
  | nil => simp
  | cons a l ih =>
    cases hfa : f a with
    | none =>
      simp only [List.filterMap_cons, hfa, List.map_cons]
      exact ih.cons (h a)
    | some b =>
      simp only [List.filterMap_cons, hfa, List.map_cons]
      rw [H a b hfa]
      exact ih.cons₂ (h a)

theorem addDerivedFields_map_date (l : List FredFullRow) :
    (addDerivedFields l).map (fun r => r.date) = l.map (fun r => r.date) := by
  conv_rhs => rw [← List.ofFn_get l]
  simp only [addDerivedFields, List.map_ofFn]
  rfl

/-- The date column of the cleaned FRED table is a sublist of the month-end
normalized dates of the raw table. -/
theorem clean_fred_dates_sublist (df : List FredRawRow) :
    List.Sublist ((clean_fred_data df).map (fun r => r.date))
      (df.map fun r => monthEnd r.date) := by
  have h1 : List.Sublist ((clean_fred_data df).map (fun r => r.date))
      ((addDerivedFields (dropnaFred (ffillLimit2 (normalizeFredDates df)))).map
        (fun r => r.date)) := by
    exact map_filterMap_sublist _ _ _
      (fun a b hb => by
        revert hb
        cases a.cpi_inflation_yoy <;> cases a.fedfunds_lag1 <;>
          cases a.fedfunds_lag3 <;> simp_all [dropnaDerived] <;>
          rintro rfl <;> rfl) _
  rw [addDerivedFields_map_date] at h1
  have h2 : List.Sublist ((dropnaFred (ffillLimit2 (normalizeFredDates df))).map
      (fun r => r.date))
      ((ffillLimit2 (normalizeFredDates df)).map (fun r => r.date)) := by
    exact map_filterMap_sublist _ _ _
      (fun a b hb => by
        revert hb
        cases a.fedfunds <;> cases a.mortgage30us <;> cases a.cpiaucsl <;>
          cases a.unrate <;> simp_all [dropnaFred] <;>
          rintro rfl <;> rfl) _
  rw [ffillLimit2, ffillRows_map_date] at h2
  have h3 : (normalizeFredDates df).map (fun r => r.date) =
      df.map fun r => monthEnd r.date := by
    simp [normalizeFredDates]
  rw [h3] at h2
  exact h1.trans h2

/-! ## The merge script, `merge_final_panel.py` -/

/-- One row of the processed REIT table as re-loaded by the merge script
(`reit_data_clean.csv`): critical fields are present and typed, the remaining
numeric columns ride along in `otherAttrs`. -/
structure MReitRow where
  ticker : String
  date : CalDate
  usdret : Rat
  otherAttrs : List (Option Rat)
deriving DecidableEq

/-- One row of the merged panel: the entity columns followed by the FRED
columns, each of which is nullable (NaN when the month had no match). -/
structure PanelRow where
  ticker : String
  date : CalDate
  usdret : Rat
  otherAttrs : List (Option Rat)
  fedfunds : Option Rat
  mortgage30us : Option Rat
  cpiaucsl : Option Rat
  unrate : Option Rat
  cpi_inflation_yoy : Option Rat
  fedfunds_lag1 : Option Rat
  fedfunds_lag3 : Option Rat
deriving DecidableEq

/-- A panel row whose month matched indicator row `i`: every FRED column is
copied from `i`. -/
def matchedPanelRow (e : MReitRow) (i : CleanFredRow) : PanelRow :=
  { ticker := e.ticker, date := e.date, usdret := e.usdret,
    otherAttrs := e.otherAttrs,
    fedfunds := some i.fedfunds, mortgage30us := some i.mortgage30us,
    cpiaucsl := some i.cpiaucsl, unrate := some i.unrate,
    cpi_inflation_yoy := some i.cpi_inflation_yoy,
    fedfunds_lag1 := some i.fedfunds_lag1,
    fedfunds_lag3 := some i.fedfunds_lag3 }

/-- A panel row whose month found no indicator row: every FRED column is NaN. -/
def unmatchedPanelRow (e : MReitRow) : PanelRow :=
  { ticker := e.ticker, date := e.date, usdret := e.usdret,
    otherAttrs := e.otherAttrs,
    fedfunds := none, mortgage30us := none, cpiaucsl := none, unrate := none,
    cpi_inflation_yoy := none, fedfunds_lag1 := none, fedfunds_lag3 := none }

/-- The rows `pd.merge(..., on='date', how='left')` produces for one left
(entity) row: one output row per matching indicator row, or a single
all-missing row when no indicator row has the same date. -/
def joinRow (e : MReitRow) (I : List CleanFredRow) : List PanelRow :=
  match I.filter (fun i => i.date == e.date) with
  | [] => [unmatchedPanelRow e]
  | m :: ms => (m :: ms).map (matchedPanelRow e)

/-- The body of the left join: every entity row is expanded by `joinRow`,
preserving the entity order. -/
def mergePanel (E : List MReitRow) (I : List CleanFredRow) : List PanelRow :=
  E.flatMap fun e => joinRow e I

/-- `merge_datasets` of `code/merge_final_panel.py`: returns `None` when
either input is missing, otherwise the left join on `date`. -/
def merge_datasets :
    Option (List MReitRow) → Option (List CleanFredRow) → Option (List PanelRow)
  | some E, some I => some (mergePanel E I)
  | _, _ => none

/-- `rows_lost = initial_reit_rows - len(panel)` (a Python `int`, so it can be
negative when the join fans out). -/
def rowsLost (initial after : Nat) : Int :=
  (initial : Int) - (after : Int)

/-- The only row-count diagnostic of `merge_datasets`: the warning branch
`if rows_lost > 0` fires exactly when rows were lost; otherwise the function
prints `✓ No data loss`. -/
def lossWarningShown (initial after : Nat) : Bool :=
  decide (0 < rowsLost initial after)

/-- Date normalization of `align_temporal_structure` on the REIT table. -/
def alignReitDates (df : List MReitRow) : List MReitRow :=
  df.map fun r => { r with date := monthEnd r.date }

/-- Date normalization of `align_temporal_structure` on the FRED table. -/
def alignFredDates (df : List CleanFredRow) : List CleanFredRow :=
  df.map fun r => { r with date := monthEnd r.date }

/-- `align_temporal_structure` of `code/merge_final_panel.py`: normalizes the
date column of whichever tables are present to month-end. -/
def align_temporal_structure (reit : Option (List MReitRow))
    (fred : Option (List CleanFredRow)) :
    Option (List MReitRow) × Option (List CleanFredRow) :=
  (reit.map alignReitDates, fred.map alignFredDates)

/-- Lexicographic date comparison used when sorting the persisted panel. -/
def dateLE (a b : CalDate) : Bool :=
  a.year < b.year || (a.year == b.year &&
    (a.month < b.month || (a.month == b.month && a.day ≤ b.day)))

/-- Sort key of `panel.sort_values(['ticker', 'date'])`. -/
def panelLE (a b : PanelRow) : Bool :=
  a.ticker < b.ticker || (a.ticker == b.ticker && dateLE a.date b.date)

/-- Insertion step of the sort used before persisting. -/
def insertPanelRow (r : PanelRow) : List PanelRow → List PanelRow
  | [] => [r]
  | x :: xs => if panelLE r x then r :: x :: xs else x :: insertPanelRow r xs

/-- `panel.sort_values(['ticker', 'date'])` inside `save_final_panel`. -/
def sortPanel (l : List PanelRow) : List PanelRow :=
  l.foldr insertPanelRow []

/-- Outcome of one run of the merge pipeline (`main`). -/
inductive PipelineResult where
  /-- A required processed file was absent: `main` prints
  `Pipeline failed: missing source data` and neither merges nor writes. -/
  | missingInput : PipelineResult
  /-- `merge_datasets` returned `None`: nothing is validated or written. -/
  | mergeFailed : PipelineResult
  /-- The panel was validated, sorted, and written to
  `reit_fred_analysis_panel.csv`. -/
  | completed : List PanelRow → PipelineResult
deriving DecidableEq

/-- `main` of `code/merge_final_panel.py`.  The two arguments are the contents
of the two processed input files (`none` = the file is absent on disk). -/
def run_merge_pipeline (reitFile : Option (List MReitRow))
    (fredFile : Option (List CleanFredRow)) : PipelineResult :=
  match reitFile, fredFile with
  | some reit, some fred =>
    match merge_datasets (align_temporal_structure (some reit) (some fred)).1
        (align_temporal_structure (some reit) (some fred)).2 with
    | some panel => .completed (sortPanel panel)
    | none => .mergeFailed
  | _, _ => .missingInput

/-- The content of `reit_fred_analysis_panel.csv` after a run, `none` when no
output file was written. -/
def writtenOutput : PipelineResult → Option (List PanelRow)
  | .completed p => some p
  | _ => none

/-- The single panel row the claims' join-correctness condition predicts for an
entity row `e`: the first indicator row with the same date is copied in whole,
and an absent date leaves every indicator column missing. -/
def expectedJoinRow (I : List CleanFredRow) (e : MReitRow) : PanelRow :=
  match I.find? (fun i => i.date == e.date) with
  | some i => matchedPanelRow e i
  | none => unmatchedPanelRow e

/-! ### Lemmas about the left join -/

theorem joinRow_length_pos (e : MReitRow) (I : List CleanFredRow) :
    1 ≤ (joinRow e I).length := by
  unfold joinRow
  cases I.filter (fun i => i.date == e.date) with
  | nil => simp
  | cons m ms => simp

theorem length_mergePanel_ge (E : List MReitRow) (I : List CleanFredRow) :
    E.length ≤ (mergePanel E I).length := by
  induction E with
  | nil => simp [mergePanel]
  | cons e E ih =>
    have h1 := joinRow_length_pos e I
    simp only [mergePanel, List.flatMap_cons, List.length_append,
      List.length_cons] at *
    omega

/-- A list whose image under `f` has no duplicate holds at most one element
with any given `f`-value. -/
theorem length_filter_key_le_one {α κ : Type} [DecidableEq κ] (f : α → κ)
    {l : List α} (h : (l.map f).Nodup) (d : κ) :
    (l.filter (fun a => f a == d)).length ≤ 1 := by
  induction l with
  | nil => simp
  | cons a l ih =>
    simp only [List.map_cons, List.nodup_cons] at h
    obtain ⟨hni, hnd⟩ := h
    by_cases had : f a = d
    · have hnil : l.filter (fun a => f a == d) = [] := by
        rw [List.filter_eq_nil_iff]
        intro b hb
        simp only [beq_iff_eq]
        intro hbd
        have hmem : f a ∈ l.map f := by
          rw [had, ← hbd]
          exact List.mem_map_of_mem f hb
        exact hni hmem
      simp [List.filter_cons, had, hnil]
    · simp only [List.filter_cons, beq_iff_eq, had, decide_False,
        Bool.false_eq_true, if_false]
      exact ih hnd

theorem filter_date_length_le_one {I : List CleanFredRow}
    (h : (I.map fun i => i.date).Nodup) (d : CalDate) :
    (I.filter (fun i => i.date == d)).length ≤ 1 :=
  length_filter_key_le_one (fun i : CleanFredRow => i.date) h d

theorem joinRow_eq_expected {I : List CleanFredRow} (e : MReitRow)
    (h : (I.map fun i => i.date).Nodup) :
    joinRow e I = [expectedJoinRow I e] := by
  have hlen := filter_date_length_le_one h e.date
  unfold joinRow expectedJoinRow
  cases hf : I.filter (fun i => i.date == e.date) with
  | nil =>
    have hnone : I.find? (fun i => i.date == e.date) = none := by
      rw [← List.filter_head?, hf]; rfl
    rw [hnone]
  | cons m ms =>
    rw [hf] at hlen
    have hms : ms = [] := by
      simp only [List.length_cons] at hlen
      exact List.length_eq_zero.mp (by omega)
    subst hms
    have hsome : I.find? (fun i => i.date == e.date) = some m := by
      rw [← List.filter_head?, hf]; rfl
    rw [hsome]
    rfl

theorem mergePanel_eq_map {E : List MReitRow} {I : List CleanFredRow}
    (h : (I.map fun i => i.date).Nodup) :
    mergePanel E I = E.map (expectedJoinRow I) := by
  induction E with
  | nil => rfl
  | cons e E ih =>
    simp only [mergePanel, List.flatMap_cons, List.map_cons] at *
    rw [joinRow_eq_expected e h, ih]
    rfl

/-! ## Claim theorems for the merge stage -/

/-- C1.  For every entity table `E` and indicator table `I` whose months are
unique (the cleaned-indicator contract), the panel `merge_datasets(E, I)`
returns has exactly as many rows as `E`: the left join on the month key
neither removes nor adds entity rows. -/
theorem merge_preserves_entity_rowcount (E : List MReitRow)
    (I : List CleanFredRow) (h : (I.map fun i => i.date).Nodup) :
    ∃ P, merge_datasets (some E) (some I) = some P ∧ P.length = E.length :=
  ⟨mergePanel E I, rfl, by rw [mergePanel_eq_map h, List.length_map]⟩

/-- Witness for C1 at a concrete one-row entity table and one-row indicator
table. -/
theorem merge_preserves_entity_rowcount_witness :
    (([⟨⟨2020, 1, 31⟩, 1, 2, 3, 4, 5, 6, 7⟩] :
        List CleanFredRow).map fun i => i.date).Nodup ∧
    ∃ P, merge_datasets
        (some [⟨"AAA", ⟨2020, 1, 31⟩, 0, []⟩])
        (some [⟨⟨2020, 1, 31⟩, 1, 2, 3, 4, 5, 6, 7⟩]) = some P ∧
      P.length = 1 :=
  ⟨by decide, merge_preserves_entity_rowcount _ _ (by decide)⟩

/-- C2 counterexample.  An indicator table with two rows for 2020-01-31 merged
against a one-row entity table is neither rejected (the result is `some _`,
not `None`) nor row-count preserving (two output rows from one entity row),
and the merge stage's only row-count diagnostic — the `rows_lost > 0` branch —
does not fire, so the duplication is reported as `✓ No data loss`. -/
theorem duplicate_month_fanout_counterexample :
    merge_datasets (some [⟨"AAA", ⟨2020, 1, 31⟩, 0, []⟩])
        (some [⟨⟨2020, 1, 31⟩, 1, 2, 3, 4, 5, 6, 7⟩,
               ⟨⟨2020, 1, 31⟩, 9, 9, 9, 9, 9, 9, 9⟩]) =
      some [matchedPanelRow ⟨"AAA", ⟨2020, 1, 31⟩, 0, []⟩
              ⟨⟨2020, 1, 31⟩, 1, 2, 3, 4, 5, 6, 7⟩,
            matchedPanelRow ⟨"AAA", ⟨2020, 1, 31⟩, 0, []⟩
              ⟨⟨2020, 1, 31⟩, 9, 9, 9, 9, 9, 9, 9⟩] ∧
    (mergePanel [⟨"AAA", ⟨2020, 1, 31⟩, 0, []⟩]
        [⟨⟨2020, 1, 31⟩, 1, 2, 3, 4, 5, 6, 7⟩,
         ⟨⟨2020, 1, 31⟩, 9, 9, 9, 9, 9, 9, 9⟩]).length = 2 ∧
    lossWarningShown 1 2 = false := by
  exact ⟨by decide, by decide, by decide⟩

/-- C2 amended.  `merge_datasets` never rejects its inputs once both are
present, the left join can only keep or grow the entity row count, and the
row-count check fires only on loss (`rows_lost > 0`) — so a fan-out caused by
duplicate indicator months is never surfaced. -/
theorem merge_rowcount_check_only_fires_on_loss (E : List MReitRow)
    (I : List CleanFredRow) :
    merge_datasets (some E) (some I) = some (mergePanel E I) ∧
    E.length ≤ (mergePanel E I).length ∧
    lossWarningShown E.length (mergePanel E I).length = false := by
  refine ⟨rfl, length_mergePanel_ge E I, ?_⟩
  have hge := length_mergePanel_ge E I
  simp only [lossWarningShown, rowsLost, decide_eq_false_iff_not, not_lt]
  omega

/-- C3.  Under the precondition that the indicator table has at most one row
per month, the merged panel is exactly the entity table mapped through
`expectedJoinRow`: every entity row is retained once; when the indicator table
has a row for its month, all indicator fields equal that row's values
(`matchedPanelRow`); when it has none, the row survives with every indicator
field missing (`unmatchedPanelRow`). -/
theorem join_correctness (E : List MReitRow) (I : List CleanFredRow)
    (h : (I.map fun i => i.date).Nodup) :
    merge_datasets (some E) (some I) = some (E.map (expectedJoinRow I)) := by
  simp only [merge_datasets, mergePanel_eq_map h]

/-- Witness for C3: the indicator table misses March 2020, so the March entity
row survives with all indicator fields missing while the January row copies
the January indicator values. -/
theorem join_correctness_witness :
    (([⟨⟨2020, 1, 31⟩, 1, 2, 3, 4, 5, 6, 7⟩] :
        List CleanFredRow).map fun i => i.date).Nodup ∧
    merge_datasets
        (some [⟨"AAA", ⟨2020, 1, 31⟩, 0, []⟩,
               ⟨"AAA", ⟨2020, 3, 31⟩, 1, []⟩])
        (some [⟨⟨2020, 1, 31⟩, 1, 2, 3, 4, 5, 6, 7⟩]) =
      some ([⟨"AAA", ⟨2020, 1, 31⟩, 0, []⟩,
             ⟨"AAA", ⟨2020, 3, 31⟩, 1, []⟩].map
        (expectedJoinRow [⟨⟨2020, 1, 31⟩, 1, 2, 3, 4, 5, 6, 7⟩])) :=
  ⟨by decide, join_correctness _ _ (by decide)⟩

/-- The all-or-nothing shape of the indicator fields of one panel row. -/
def panelAllOrNone (p : PanelRow) : Bool :=
  (p.fedfunds.isSome && p.mortgage30us.isSome && p.cpiaucsl.isSome &&
   p.unrate.isSome && p.cpi_inflation_yoy.isSome &&
   p.fedfunds_lag1.isSome && p.fedfunds_lag3.isSome) ||
  (p.fedfunds.isNone && p.mortgage30us.isNone && p.cpiaucsl.isNone &&
   p.unrate.isNone && p.cpi_inflation_yoy.isNone &&
   p.fedfunds_lag1.isNone && p.fedfunds_lag3.isNone)

/-- C5.  In a panel merged from a cleaned indicator table, every row's
indicator fields are either all populated (its month was matched) or all
missing (its month was absent); partial population is impossible. -/
theorem indicator_fields_all_or_none (E : List MReitRow)
    (raw : List FredRawRow) :
    (mergePanel E (clean_fred_data raw)).all panelAllOrNone = true := by
  rw [List.all_eq_true]
  intro p hp
  obtain ⟨e, _, hpe⟩ := List.mem_flatMap.mp hp
  revert hpe
  unfold joinRow
  cases (clean_fred_data raw).filter (fun i => i.date == e.date) with
  | nil =>
    intro hpe
    simp only [List.mem_singleton] at hpe
    subst hpe
    rfl
  | cons m ms =>
    intro hpe
    obtain ⟨i, _, hpi⟩ := List.mem_map.mp hpe
    subst hpi
    rfl

/-! ## Claim theorems for the cleaners -/

/-- C6 counterexample.  A row whose `usdret` is present but unparseable
(NaN after `to_numeric(errors='coerce')`) survives `clean_reit_data` when the
table holds no strictly out-of-bounds return: the `dropna` on critical fields
sees a present cell, the outlier count is zero, so the bounds filter never
runs.  The retained row's return is null, refuting "every returned row has a
non-null return in `[-1, 5]`". -/
theorem unbounded_return_counterexample :
    clean_reit_data
        [⟨some "AAA", some (some ⟨2020, 1, 31⟩), some none, []⟩] =
      [⟨some "AAA", some (some ⟨2020, 1, 31⟩), some none, []⟩] ∧
    ¬ ∃ q : Rat,
        (⟨some "AAA", some (some ⟨2020, 1, 31⟩), some none, []⟩ :
          RawReitRow).usdret = some (some q) ∧ -1 ≤ q ∧ q ≤ 5 := by
  constructor
  · decide
  · rintro ⟨q, hq, -, -⟩
    simp at hq

/-- C6 amended.  Every row of `clean_reit_data`'s output has a *present*
`usdret` cell (the critical-field `dropna` guarantees that), and whenever
that cell parsed to a number `q`, `-1 ≤ q ≤ 5` holds: either the guarded
outlier filter ran (dropping everything outside the bounds and every NaN),
or it did not run because no strictly out-of-bounds return existed — in which
case every parsed return was already in bounds.  A present-but-unparseable
(null-after-coercion) return, however, can survive when the guard does not
fire. -/
theorem cleaned_return_bounded (df : List RawReitRow) :
    ∀ r ∈ clean_reit_data df,
      (∃ v, r.usdret = some v) ∧
      ∀ q : Rat, r.usdret = some (some q) → -1 ≤ q ∧ q ≤ 5 := by
  intro r hr
  have hv : r ∈ validReitRows df := mem_dedupAux hr
  unfold validReitRows upperTickers at hv
  obtain ⟨s, hs, rfl⟩ := List.mem_map.mp hv
  have hs2 : s ∈ dropInvalidDates (dropMissingCritical df) := by
    unfold filterOutlierReturns at hs
    by_cases hout :
      0 < ((dropInvalidDates (dropMissingCritical df)).filter
        returnOutlier).length
    · rw [if_pos hout] at hs
      exact List.mem_of_mem_filter hs
    · rw [if_neg hout] at hs
      exact hs
  have hs1 : s ∈ dropMissingCritical df := by
    unfold dropInvalidDates at hs2
    exact List.mem_of_mem_filter hs2
  have hpres : s.usdret.isSome = true := by
    unfold dropMissingCritical at hs1
    have hcrit := (List.mem_filter.mp hs1).2
    simp only [Bool.and_eq_true] at hcrit
    exact hcrit.2
  constructor
  · cases hu : s.usdret with
    | none => rw [hu] at hpres; cases hpres
    | some v => exact ⟨v, rfl⟩
  · intro q hq
    have hq' : s.usdret = some (some q) := hq
    unfold filterOutlierReturns at hs
    by_cases hout :
      0 < ((dropInvalidDates (dropMissingCritical df)).filter
        returnOutlier).length
    · rw [if_pos hout] at hs
      have hb := (List.mem_filter.mp hs).2
      unfold returnInBounds at hb
      rw [hq'] at hb
      simp only [Bool.and_eq_true, decide_eq_true_eq] at hb
      exact ⟨hb.2, hb.1⟩
    · rw [if_neg hout] at hs
      have hnil : (dropInvalidDates (dropMissingCritical df)).filter
          returnOutlier = [] :=
        List.length_eq_zero.mp (Nat.eq_zero_of_not_pos hout)
      have hno : returnOutlier s = false := by
        by_contra hcon
        have hmem : s ∈ (dropInvalidDates (dropMissingCritical df)).filter
            returnOutlier :=
          List.mem_filter.mpr ⟨hs, by revert hcon; cases returnOutlier s <;> simp⟩
        rw [hnil] at hmem
        cases hmem
      unfold returnOutlier at hno
      rw [hq'] at hno
      simp only [Bool.or_eq_false_iff, decide_eq_false_iff_not, not_lt] at hno
      exact ⟨hno.2, hno.1⟩

/-- Witness for the amended C6 at a one-row table (the ticker is also
uppercased on the way through). -/
theorem cleaned_return_bounded_witness :
    (⟨some "AAA", some (some ⟨2020, 1, 31⟩), some (some 0), []⟩ : RawReitRow) ∈
      clean_reit_data
        [⟨some "aaa", some (some ⟨2020, 1, 31⟩), some (some 0), []⟩] ∧
    ((∃ v, (some (some 0) : RawCell Rat) = some v) ∧
     ∀ q : Rat, (some (some 0) : RawCell Rat) = some (some q) →
       -1 ≤ q ∧ q ≤ 5) := by
  constructor
  · decide
  · exact cleaned_return_bounded
      [⟨some "aaa", some (some ⟨2020, 1, 31⟩), some (some 0), []⟩]
      ⟨some "AAA", some (some ⟨2020, 1, 31⟩), some (some 0), []⟩ (by decide)

/-- C10 counterexample.  Two raw rows share the uppercased `(ticker, date)`
key, but the first is an outlier (`usdret = 6 > 5`) and is removed *before*
de-duplication, so the row `clean_reit_data` retains is the *second* raw row,
not the first one in input order. -/
theorem duplicate_keep_first_counterexample :
    clean_reit_data
        [⟨some "AAA", some (some ⟨2020, 1, 31⟩), some (some 6), []⟩,
         ⟨some "AAA", some (some ⟨2020, 1, 31⟩), some (some 0), []⟩] =
      [⟨some "AAA", some (some ⟨2020, 1, 31⟩), some (some 0), []⟩] ∧
    (⟨some "AAA", some (some ⟨2020, 1, 31⟩), some (some 6), []⟩ : RawReitRow) ∉
      clean_reit_data
        [⟨some "AAA", some (some ⟨2020, 1, 31⟩), some (some 6), []⟩,
         ⟨some "AAA", some (some ⟨2020, 1, 31⟩), some (some 0), []⟩] ∧
    reitKey (⟨some "AAA", some (some ⟨2020, 1, 31⟩),
        some (some 6), []⟩ : RawReitRow) =
      reitKey ⟨some "AAA", some (some ⟨2020, 1, 31⟩), some (some 0), []⟩ := by
  exact ⟨by decide, by decide, by decide⟩

/-- C10 amended.  Among the rows that survive the missing-critical-field,
date-parse and outlier filters (`validReitRows`, which preserves input
order), `clean_reit_data` retains exactly the first row of each uppercased
`(ticker, date)` key and drops every later occurrence. -/
theorem duplicate_keep_first_amended (df : List RawReitRow)
    (k : Option String × RawCell CalDate) :
    (clean_reit_data df).filter (fun r => decide (reitKey r = k)) =
      ((validReitRows df).filter (fun r => decide (reitKey r = k))).take 1 := by
  unfold clean_reit_data dropDuplicatesKeepFirst
  rw [dedupAux_filter_key k (validReitRows df) []]
  simp

/-- C4 counterexample.  Key uniqueness after cleaning does *not* hold at month
granularity: two raw entity rows with the same ticker and two different days
of the same calendar month both survive `clean_reit_data` (its
`drop_duplicates` key is the exact date, and dates are not month-normalized
in this script), giving two distinct output rows with equal
(identifier, calendar month). -/
theorem month_key_uniqueness_counterexample :
    clean_reit_data
        [⟨some "AAA", some (some ⟨2020, 1, 5⟩), some (some 0), []⟩,
         ⟨some "AAA", some (some ⟨2020, 1, 20⟩), some (some 1), []⟩] =
      [⟨some "AAA", some (some ⟨2020, 1, 5⟩), some (some 0), []⟩,
       ⟨some "AAA", some (some ⟨2020, 1, 20⟩), some (some 1), []⟩] ∧
    (⟨some "AAA", some (some ⟨2020, 1, 5⟩), some (some 0), []⟩ : RawReitRow) ≠
      ⟨some "AAA", some (some ⟨2020, 1, 20⟩), some (some 1), []⟩ ∧
    calMonth ⟨2020, 1, 5⟩ = calMonth ⟨2020, 1, 20⟩ := by
  exact ⟨by decide, by decide, by decide⟩

/-- C4 amended.  After cleaning, the entity table's `(ticker, date)` keys are
pairwise distinct for *every* input (exact-date granularity); and the
indicator table has at most one row per calendar month *provided* the raw
indicator input already had at most one row per calendar month (the cleaner
normalizes, fills and drops rows but never merges two same-month rows). -/
theorem cleaned_key_uniqueness (df : List RawReitRow) (fdf : List FredRawRow)
    (h : (fdf.map fun r => calMonth r.date).Nodup) :
    ((clean_reit_data df).map reitKey).Nodup ∧
    ((clean_fred_data fdf).map fun r => calMonth r.date).Nodup := by
  constructor
  · exact (@dedupAux_keys _ _ reitKey _ (validReitRows df) []).1
  · have hs := (clean_fred_dates_sublist fdf).map calMonth
    rw [List.map_map, List.map_map] at hs
    have he : fdf.map (calMonth ∘ fun r => monthEnd r.date) =
        fdf.map fun r => calMonth r.date := by
      simp [Function.comp, calMonth, monthEnd]
    rw [he] at hs
    have hgoal : ((clean_fred_data fdf).map fun r => calMonth r.date).Sublist
        (fdf.map fun r => calMonth r.date) := hs
    exact List.Nodup.sublist hgoal h

/-! ## Claim theorems for temporal alignment and the pipeline driver -/

/-- C7.  `monthEnd` (the normalization applied by `align_temporal_structure`
to both tables and by `clean_fred_data` to the indicator dates) keeps the
year and month of the original observation and sets the day to the last
calendar day of that month; consequently any two dates of the same calendar
month receive equal join keys, and every date in the aligned tables and in
the cleaned indicator table is a month-end date. -/
theorem month_end_alignment (d d₁ d₂ : CalDate) (reit : List MReitRow)
    (fred : List CleanFredRow) (fdf : List FredRawRow)
    (h : calMonth d₁ = calMonth d₂) :
    (monthEnd d).year = d.year ∧ (monthEnd d).month = d.month ∧
    (monthEnd d).day = lastDayOfMonth d.year d.month ∧
    monthEnd d₁ = monthEnd d₂ ∧
    align_temporal_structure (some reit) (some fred) =
      (some (alignReitDates reit), some (alignFredDates fred)) ∧
    ((alignReitDates reit).map fun r => r.date) =
      (reit.map fun r => monthEnd r.date) ∧
    ((alignFredDates fred).map fun r => r.date) =
      (fred.map fun r => monthEnd r.date) ∧
    (clean_fred_data fdf).all (fun r => monthEnd r.date == r.date) = true := by
  have h1 : d₁.year = d₂.year := congrArg Prod.fst h
  have h2 : d₁.month = d₂.month := congrArg Prod.snd h
  refine ⟨rfl, rfl, rfl, ?_, rfl, ?_, ?_, ?_⟩
  · unfold monthEnd
    rw [h1, h2]
  · simp [alignReitDates]
  · simp [alignFredDates]
  · rw [List.all_eq_true]
    intro r hrm
    have hdm : r.date ∈ fdf.map (fun x => monthEnd x.date) :=
      (clean_fred_dates_sublist fdf).subset (List.mem_map_of_mem _ hrm)
    obtain ⟨x, _, hx⟩ := List.mem_map.mp hdm
    rw [← hx]
    exact beq_self_eq_true (monthEnd x.date)

/-- Witness for C7: two mid-month January dates share a join key, and a
February date of a leap year is sent to day 29. -/
theorem month_end_alignment_witness :
    calMonth ⟨2020, 1, 5⟩ = calMonth ⟨2020, 1, 20⟩ ∧
    monthEnd ⟨2020, 1, 5⟩ = monthEnd ⟨2020, 1, 20⟩ ∧
    (monthEnd ⟨2020, 2, 10⟩).day = lastDayOfMonth 2020 2 := by
  refine ⟨by decide, ?_, ?_⟩
  · exact (month_end_alignment ⟨2020, 2, 10⟩ ⟨2020, 1, 5⟩ ⟨2020, 1, 20⟩
      [] [] [] (by decide)).2.2.2.1
  · exact (month_end_alignment ⟨2020, 2, 10⟩ ⟨2020, 1, 5⟩ ⟨2020, 1, 20⟩
      [] [] [] (by decide)).2.2.1

/-- C8 counterexample.  A present but *zero-row* indicator table is not
detected by the merge pipeline: `merge_datasets` only guards against `None`
inputs, so the run completes and persists a panel whose indicator columns are
entirely missing, instead of aborting. -/
theorem empty_table_not_detected_counterexample :
    run_merge_pipeline (some [⟨"AAA", ⟨2020, 3, 31⟩, 0, []⟩]) (some []) =
      .completed [unmatchedPanelRow ⟨"AAA", ⟨2020, 3, 31⟩, 0, []⟩] ∧
    writtenOutput
        (run_merge_pipeline (some [⟨"AAA", ⟨2020, 3, 31⟩, 0, []⟩]) (some [])) =
      some [unmatchedPanelRow ⟨"AAA", ⟨2020, 3, 31⟩, 0, []⟩] := by
  exact ⟨by decide, by decide⟩

/-- C8 amended.  The pipeline aborts only on *absent* (`None`) tables; a
present table always carries the run to completion and persistence, whatever
its row count — emptiness of a stage output is never checked. -/
theorem empty_table_passes_merge_guard (E : List MReitRow)
    (I : List CleanFredRow) (x : Option (List MReitRow))
    (y : Option (List CleanFredRow)) :
    run_merge_pipeline (some E) (some I) =
      .completed (sortPanel (mergePanel (alignReitDates E) (alignFredDates I))) ∧
    run_merge_pipeline none y = .missingInput ∧
    run_merge_pipeline x none = .missingInput := by
  refine ⟨rfl, ?_, ?_⟩
  · cases y <;> rfl
  · cases x <;> rfl

/-- C9.  When either processed input file is absent, `main` reports the
missing input, performs no merge, and writes no output file. -/
theorem missing_input_aborts (x : Option (List MReitRow))
    (y : Option (List CleanFredRow)) (h : x = none ∨ y = none) :
    run_merge_pipeline x y = .missingInput ∧
    writtenOutput (run_merge_pipeline x y) = none := by
  have hres : run_merge_pipeline x y = .missingInput := by
    rcases h with rfl | rfl
    · cases y <;> rfl
    · cases x <;> rfl
  exact ⟨hres, by rw [hres]; rfl⟩

/-- Witness for C9 with the REIT file absent and the FRED file present. -/
theorem missing_input_aborts_witness :
    ((none : Option (List MReitRow)) = none ∨
      (some [] : Option (List CleanFredRow)) = none) ∧
    (run_merge_pipeline none (some []) = .missingInput ∧
     writtenOutput (run_merge_pipeline none (some [])) = none) :=
  ⟨Or.inl rfl, missing_input_aborts none (some []) (Or.inl rfl)⟩

/-- A fourteen-month sample of the raw indicator table (integer-valued
series, first-of-month dates), used to check that the embedded cleaner is not
vacuous: the first twelve months are consumed by the year-over-year warm-up
and the last two survive. -/
def fredSample : List FredRawRow :=
  [⟨⟨2020, 1, 1⟩, some 1, some 2, some 100, some 4⟩,
   ⟨⟨2020, 2, 1⟩, some 1, some 2, some 101, some 4⟩,
   ⟨⟨2020, 3, 1⟩, some 1, some 2, some 102, some 4⟩,
   ⟨⟨2020, 4, 1⟩, some 1, some 2, some 103, some 4⟩,
   ⟨⟨2020, 5, 1⟩, some 1, some 2, some 104, some 4⟩,
   ⟨⟨2020, 6, 1⟩, some 1, some 2, some 105, some 4⟩,
   ⟨⟨2020, 7, 1⟩, some 1, some 2, some 106, some 4⟩,
   ⟨⟨2020, 8, 1⟩, some 1, some 2, some 107, some 4⟩,
   ⟨⟨2020, 9, 1⟩, some 1, some 2, some 108, some 4⟩,
   ⟨⟨2020, 10, 1⟩, some 1, some 2, some 109, some 4⟩,
   ⟨⟨2020, 11, 1⟩, some 1, some 2, some 110, some 4⟩,
   ⟨⟨2020, 12, 1⟩, some 1, some 2, some 111, some 4⟩,
   ⟨⟨2021, 1, 1⟩, some 1, some 2, some 112, some 4⟩,
   ⟨⟨2021, 2, 1⟩, some 1, some 2, some 113, some 4⟩]

/-- The embedded `clean_fred_data` keeps exactly the two post-warm-up months
of `fredSample` and emits their month-end dates. -/
theorem clean_fred_data_sample_dates :
    ((clean_fred_data fredSample).map fun r => r.date) =
      [⟨2021, 1, 31⟩, ⟨2021, 2, 28⟩] := by
  decide

/-- Witness for the amended C4 at a one-row entity table and the fourteen-month
indicator sample (whose raw months are pairwise distinct). -/
theorem cleaned_key_uniqueness_witness :
    (fredSample.map fun r => calMonth r.date).Nodup ∧
    (((clean_reit_data
        [⟨some "aaa", some (some ⟨2020, 1, 31⟩), some (some 0), []⟩]).map
          reitKey).Nodup ∧
     ((clean_fred_data fredSample).map fun r => calMonth r.date).Nodup) :=
  ⟨by decide, cleaned_key_uniqueness
    [⟨some "aaa", some (some ⟨2020, 1, 31⟩), some (some 0), []⟩]
    fredSample (by decide)⟩
